import Mathlib

/-!
Verification development for the JSON-RPC 2.0 connection core and the URI
router of the `go-modelcontextprotocol` repository.

The Go source is shallowly embedded: pure functions become Lean functions,
the connection's mutable state (the pending correlation table, the closed
flag) is passed explicitly, Go maps are modelled as association lists with
Go's insert-replaces / delete semantics, Go strings as `List Char`, and
fallible operations return `Except`/`Option`.  Machine integers are `Int`;
the one place overflow/precision matters (decoding a JSON number through
`float64` in `ID.UnmarshalJSON`) is modelled with an explicit
round-to-nearest-even-at-53-bits function.
-/

namespace JsonRpc2

/-- Model of a decoded JSON value (`any` after `json.Unmarshal` in Go).
Numbers carry exact integers: the only JSON numbers produced or consumed by
the code paths verified here are integer literals, and the `float64`
rounding Go applies on decode is modelled explicitly where it matters
(`unmarshalID`). -/
inductive Json where
  | null : Json
  | bool (b : Bool) : Json
  | num (n : Int) : Json
  | str (s : String) : Json
  | arr (elems : List Json) : Json
  | obj (fields : List (String × Json)) : Json

/-- A decoded JSON object (`map[string]any` in Go): an association list with
unique keys; lookup returns the first binding. -/
abbrev JObj := List (String × Json)

/-- Key lookup in a decoded object (`v[key]` with the `, ok` form). -/
def jLookup (o : JObj) (key : String) : Option Json :=
  match o with
  | [] => none
  | (k, v) :: rest => if k = key then some v else jLookup rest key

/-- Key-presence test (`_, ok := v[key]`). -/
def jHasKey (o : JObj) (key : String) : Bool :=
  (jLookup o key).isSome

/-- `messageType` from the source: request, response or notification. -/
inductive MessageType where
  | request : MessageType
  | response : MessageType
  | notification : MessageType
deriving DecidableEq, Repr

/-- The check `v, ok := v["jsonrpc"]; !ok || v != "2.0"` from the source:
true exactly when the `jsonrpc` member is present and is the string "2.0"
(comparing an `any` against a string matches only a string of equal value). -/
def jsonrpcOk (v : JObj) : Bool :=
  match jLookup v "jsonrpc" with
  | some (Json.str s) => s = "2.0"
  | _ => false

/-- Embedding of `getMessageType` (connection source), applied to the decoded
object.  The Go function first decodes the raw bytes into `map[string]any`;
callers in this development only reach it with a successfully decoded object,
so the decode step is the caller's responsibility. -/
def getMessageType (v : JObj) : Except String MessageType :=
  if ¬ jsonrpcOk v then
    Except.error "invalid JSON-RPC version"
  else if jHasKey v "error" then
    -- if error is present, it is a response; error responses may lack an id
    Except.ok MessageType.response
  else if jHasKey v "result" then
    if jHasKey v "id" then Except.ok MessageType.response
    else Except.error "invalid message type"
  else if jHasKey v "method" then
    if jHasKey v "id" then Except.ok MessageType.request
    else Except.ok MessageType.notification
  else
    Except.error "invalid message type"

/-- Spec-side version check (claim C1's words): the `jsonrpc` member is
present and equal to the string "2.0". -/
def specVersionOk (v : JObj) : Bool :=
  match jLookup v "jsonrpc" with
  | some (Json.str s) => s = "2.0"
  | _ => false

/-- Classification rules transcribed from the specification text (§4.1 /
claim C1), written independently of `getMessageType` for a refinement
comparison: reject wrong/missing `jsonrpc`; `error` present ⇒ Response;
`result` present ⇒ Response when `id` is present, otherwise invalid;
`method` present ⇒ Request when `id` is present, otherwise Notification;
none of these members ⇒ invalid. -/
def specClassify (v : JObj) : Option MessageType :=
  if specVersionOk v then
    if jHasKey v "error" then some MessageType.response
    else if jHasKey v "result" then
      if jHasKey v "id" then some MessageType.response else none
    else if jHasKey v "method" then
      if jHasKey v "id" then some MessageType.request
      else some MessageType.notification
    else none
  else none

/-- `Except` collapsed to `Option`, for comparing code and spec classifiers. -/
def classifyOk (v : JObj) : Option MessageType :=
  (getMessageType v).toOption

/-! ## ID values and their JSON round-trip -/

/-- `ID` from the source: a string, an integer, or null. -/
inductive IDVal where
  | str (s : String) : IDVal
  | int (n : Int) : IDVal
  | null : IDVal
deriving DecidableEq, Repr

/-- Bit length of a natural number, by fuel recursion (fuel 128 covers all
values arising from Go's 64-bit integers). -/
def bitlenFuel : Nat → Nat → Nat
  | 0, _ => 0
  | fuel + 1, n => if n = 0 then 0 else bitlenFuel fuel (n / 2) + 1

/-- Bit length of a natural number below `2 ^ 128`. -/
def bitlen (n : Nat) : Nat := bitlenFuel 128 n

/-- Round a natural number to 53 significant bits, ties to even: the value of
the nearest `float64` for inputs below `2 ^ 128`.  Models Go decoding an
integer JSON numeral into a `float64`. -/
def roundNat53 (a : Nat) : Nat :=
  let L := bitlen a
  if L ≤ 53 then a
  else
    let step := 2 ^ (L - 53)
    let q := a / step
    let r := a % step
    let half := step / 2
    if r < half then q * step
    else if half < r then (q + 1) * step
    else if q % 2 = 0 then q * step else (q + 1) * step

/-- Signed version of `roundNat53`: the `float64` nearest to an integer
(float64 rounding is sign-symmetric). -/
def roundInt53 (n : Int) : Int :=
  if n < 0 then -((roundNat53 n.natAbs : Nat) : Int)
  else ((roundNat53 n.natAbs : Nat) : Int)

/-- Embedding of `ID.MarshalJSON`: a string ID marshals as a JSON string, an
integer ID as an exact integer numeral, a null ID as JSON null. -/
def marshalID (id : IDVal) : Json :=
  match id with
  | IDVal.str s => Json.str s
  | IDVal.int n => Json.num n
  | IDVal.null => Json.null

/-- Embedding of `ID.UnmarshalJSON`: the data is decoded as `any`, so a JSON
number becomes a `float64` (modelled by `roundInt53` on the exact numeral)
and is then converted to `int` (truncation, identity on the already-integral
rounded value); a string stays a string; null stays null; any other JSON
type is rejected. -/
def unmarshalID (j : Json) : Except String IDVal :=
  match j with
  | Json.str s => Except.ok (IDVal.str s)
  | Json.num n => Except.ok (IDVal.int (roundInt53 n))
  | Json.null => Except.ok IDVal.null
  | _ => Except.error "invalid ID type"

/-- Marshal an ID to JSON and decode it back. -/
def idRoundtrip (id : IDVal) : Except String IDVal :=
  unmarshalID (marshalID id)

/-! ## The pending (correlation) table and `Conn.Call` / `Conn.Close`

`Conn.pending` is a Go map from `ID` to a response channel; channels are
modelled by numeric tokens.  Go map assignment replaces any existing entry;
`delete` removes the key. -/

/-- The pending correlation table: `map[ID]chan json.RawMessage`. -/
abbrev Pending := List (IDVal × Nat)

/-- Go map lookup `c.pending[id]`. -/
def pendingLookup (m : Pending) (id : IDVal) : Option Nat :=
  match m with
  | [] => none
  | (k, v) :: rest => if k = id then some v else pendingLookup rest id

/-- Go map `delete(c.pending, id)`. -/
def pendingDelete (m : Pending) (id : IDVal) : Pending :=
  m.filter (fun kv => kv.1 ≠ id)

/-- Go map assignment `c.pending[id] = ch`: replaces any existing entry. -/
def pendingInsert (m : Pending) (id : IDVal) (ch : Nat) : Pending :=
  (id, ch) :: pendingDelete m id

/-- One observable action of `Conn.Call` on the shared state, in program
order: registering the delivery slot, sending on the transport, removing the
registration. -/
inductive CallEvent where
  | register (id : IDVal) : CallEvent
  | send : CallEvent
  | unregister (id : IDVal) : CallEvent
deriving DecidableEq, Repr

/-- How `Conn.Call` returns (or suspends). -/
inductive CallRet where
  | ctxError : CallRet
  | connClosed : CallRet
  | marshalError : CallRet
  | sendError : CallRet
  | waiting : CallRet
deriving DecidableEq, Repr

/-- Result of running `Conn.Call` up to (and including) its final `select`:
the ordered trace of actions taken, the pending table afterwards, and the
outcome. -/
structure CallResult where
  events : List CallEvent
  finalPending : Pending
  ret : CallRet
deriving DecidableEq, Repr

/-- Embedding of `Conn.Call` (connection source): the initial `select` checks
the context and the closed channel; the request is marshalled; the delivery
slot is registered (map assignment); the bytes are sent; on send failure the
registration is deleted and the send error returned; otherwise the call
blocks in its wait `select`.  External outcomes (context already done,
connection closed, marshal failure, transport send failure) are passed as
booleans. -/
def connCall (pending0 : Pending) (closed ctxDone marshalOk sendOk : Bool)
    (id : IDVal) (ch : Nat) : CallResult :=
  if ctxDone then ⟨[], pending0, CallRet.ctxError⟩
  else if closed then ⟨[], pending0, CallRet.connClosed⟩
  else if ¬ marshalOk then ⟨[], pending0, CallRet.marshalError⟩
  else
    let p1 := pendingInsert pending0 id ch
    if ¬ sendOk then
      ⟨[CallEvent.register id, CallEvent.send, CallEvent.unregister id],
        pendingDelete p1 id, CallRet.sendError⟩
    else
      ⟨[CallEvent.register id, CallEvent.send], p1, CallRet.waiting⟩

/-- The connection state `Conn.Close` can affect: the closed flag and the
pending table (the transport is external). -/
structure ConnState where
  pending : Pending
  closed : Bool
deriving DecidableEq, Repr

/-- Embedding of `Conn.Close`: when not yet closed it closes the `closed`
channel and the transport; it never touches the pending table. -/
def connClose (s : ConnState) : ConnState :=
  if s.closed then s else { s with closed := true }

/-- The wait `select` at the end of `Conn.Call` has exactly two cases: the
response channel firing and `ctx.Done()`.  This predicate says whether a
blocked call wakes up; closing the connection is not among the cases. -/
def callWaiterWakes (respDelivered ctxDone : Bool) : Bool :=
  respDelivered || ctxDone

/-! ## Inbound dispatch: `handleMessage`, batch handling, the serve loop -/

/-- Modelled from the spec: the `Code*` constant declarations of the
`jsonrpc2` package are not among the provided source files (only their uses
are); the values follow the spec's reserved-code table
(ParseError = -32700, InvalidRequest = -32600, MethodNotFound = -32601,
InternalError = -32603). -/
def codeParseError : Int := -32700

/-- Modelled from the spec: see `codeParseError`. -/
def codeInvalidRequest : Int := -32600

/-- Modelled from the spec: see `codeParseError`. -/
def codeMethodNotFound : Int := -32601

/-- Modelled from the spec: see `codeParseError`. -/
def codeInternalError : Int := -32603

/-- A wire-level response as constructed by the connection: an id plus
either an error (code and message) or a success result (result values are
opaque to the properties verified here). -/
structure Resp where
  id : IDVal
  errCode : Option Int
  message : String
deriving DecidableEq, Repr

/-- `Conn.generateErrorResponse`. -/
def generateErrorResponse (id : IDVal) (code : Int) (message : String) : Resp :=
  { id := id, errCode := some code, message := message }

/-- What one `transport.Send` carries: a single response object or a batch
array of responses. -/
inductive WireOut where
  | single (r : Resp) : WireOut
  | arrayOut (rs : List Resp) : WireOut
deriving DecidableEq, Repr

/-- A Go error value as seen by `convertError`: either it carries a
JSON-RPC code/message (the `code()/message()/data()` capability) or it is a
plain error exposing only `Error()`. -/
inductive GoErr where
  | coded (code : Int) (msg : String) : GoErr
  | plain (msg : String) : GoErr
deriving DecidableEq, Repr

/-- `err.Error()`: for a `jsonrpc2.Error` this is its message field. -/
def goErrMessage : GoErr → String
  | GoErr.coded _ msg => msg
  | GoErr.plain msg => msg

/-- `convertError`: keep the code and message of a coded error, wrap a plain
error with code -32000. -/
def convertError : GoErr → Int × String
  | GoErr.coded c m => (c, m)
  | GoErr.plain m => (-32000, m)

/-- The handler registry with each handler's outcome on the incoming
message: `Except.ok` for success (result opaque), `Except.error` for a
handler error. -/
abbrev Handlers := List (String × Except GoErr Unit)

/-- Handler lookup `c.handlers[req.Method]`. -/
def handlersLookup (hs : Handlers) (method : String) : Option (Except GoErr Unit) :=
  match hs with
  | [] => none
  | (k, v) :: rest => if k = method then some v else handlersLookup rest method

/-- Unmarshalling `Request[json.RawMessage]` from a decoded object: the
version must be "2.0", a present `id` member must decode as an ID (absent
means the zero, null ID), a present `method` member must be a string (absent
means the empty method); `params` is captured raw and cannot fail. -/
def reqOfObj (o : JObj) : Except String (IDVal × String) :=
  if ¬ jsonrpcOk o then Except.error "invalid JSON-RPC version"
  else
    match jLookup o "id" with
    | none =>
      match jLookup o "method" with
      | none => Except.ok (IDVal.null, "")
      | some (Json.str s) => Except.ok (IDVal.null, s)
      | some _ => Except.error "cannot unmarshal method"
    | some j =>
      match unmarshalID j with
      | Except.error e => Except.error e
      | Except.ok id =>
        match jLookup o "method" with
        | none => Except.ok (id, "")
        | some (Json.str s) => Except.ok (id, s)
        | some _ => Except.error "cannot unmarshal method"

/-- Shape check for a present `error` member when unmarshalling a
`Response`: it must be an object whose `code`, when present, is a number
and whose `message`, when present, is a string (`Error[json.RawMessage]`'s
`data` is captured raw). -/
def errMemberOk (o : JObj) : Bool :=
  match jLookup o "error" with
  | none => true
  | some (Json.obj fields) =>
    (match jLookup fields "code" with
     | none => true
     | some (Json.num _) => true
     | some _ => false)
    &&
    (match jLookup fields "message" with
     | none => true
     | some (Json.str _) => true
     | some _ => false)
  | some _ => false

/-- Unmarshalling `Response[json.RawMessage, json.RawMessage]` from a
decoded object, keeping the id (all `handleResponse` uses): version check,
id decode, and the `error` member's shape. -/
def respOfObj (o : JObj) : Except String IDVal :=
  if ¬ jsonrpcOk o then Except.error "invalid JSON-RPC version"
  else if ¬ errMemberOk o then Except.error "cannot unmarshal error"
  else
    match jLookup o "id" with
    | none => Except.ok IDVal.null
    | some j => unmarshalID j

/-- `Conn.sendError`: refuses a null id without sending, otherwise sends a
single error response built by `convertError`; the returned error is the
transport send's. -/
def sendErrorM (sendErr : Option String) (id : IDVal) (e : GoErr) :
    List WireOut × Option String :=
  if id = IDVal.null then ([], some "invalid error ID")
  else
    let (code, msg) := convertError e
    ([WireOut.single { id := id, errCode := some code, message := msg }], sendErr)

/-- `Conn.sendResponse`: refuses a null id without sending, otherwise sends
a single success response; the returned error is the transport send's. -/
def sendResponseM (sendErr : Option String) (id : IDVal) :
    List WireOut × Option String :=
  if id = IDVal.null then ([], some "invalid response ID")
  else ([WireOut.single { id := id, errCode := none, message := "" }], sendErr)

/-- `Conn.handleRequest` (context taken to be alive): unmarshal the request,
look up the handler; missing handler sends MethodNotFound (-32601), a
handler error is converted and sent, success sends a success response. -/
def handleRequestM (hs : Handlers) (sendErr : Option String) (o : JObj) :
    List WireOut × Option String :=
  match reqOfObj o with
  | Except.error e => ([], some e)
  | Except.ok (id, method) =>
    match handlersLookup hs method with
    | none => sendErrorM sendErr id (GoErr.coded (-32601) "method not found")
    | some (Except.error herr) => sendErrorM sendErr id herr
    | some (Except.ok _) => sendResponseM sendErr id

/-- `Conn.handleResponse` (context alive): unmarshal, look up the pending
slot by id; if found the entry is removed and the raw message delivered to
the slot, otherwise the orphan is reported as `invalid response ID`. -/
def handleResponseM (pending : Pending) (o : JObj) : Pending × Option String :=
  match respOfObj o with
  | Except.error e => (pending, some e)
  | Except.ok id =>
    match pendingLookup pending id with
    | some _ => (pendingDelete pending id, none)
    | none => (pending, some "invalid response ID")

/-- `Conn.handleNotification`: unmarshal, look up and invoke the handler;
nothing is ever sent, errors are only returned. -/
def handleNotificationM (hs : Handlers) (o : JObj) : Option String :=
  match reqOfObj o with
  | Except.error e => some e
  | Except.ok (_, method) =>
    match handlersLookup hs method with
    | none => some "method not found"
    | some (Except.error herr) => some (goErrMessage herr)
    | some (Except.ok _) => none

/-- Result of handling one received raw message: the sends attempted on the
transport in order, the pending table afterwards, and `handleMessage`'s
error return (`some` terminates the serve loop). -/
structure HandleResult where
  sent : List WireOut
  pendingAfter : Pending
  ret : Option String
deriving DecidableEq, Repr

/-- `Conn.handleRawMessage`: classify and dispatch a single decoded
message. -/
def handleRawMessageM (hs : Handlers) (pending : Pending)
    (sendErr : Option String) (o : JObj) : HandleResult :=
  match getMessageType o with
  | Except.ok MessageType.request =>
    let (sent, ret) := handleRequestM hs sendErr o
    ⟨sent, pending, ret⟩
  | Except.ok MessageType.response =>
    let (p, ret) := handleResponseM pending o
    ⟨[], p, ret⟩
  | Except.ok MessageType.notification =>
    ⟨[], pending, handleNotificationM hs o⟩
  | Except.error e => ⟨[], pending, some e⟩

/-- A batch element after decoding the surrounding array: either it decodes
as a JSON object or it does not (`json.Unmarshal` into `map[string]any`
fails, e.g. for a number, string, or malformed element). -/
inductive RawElem where
  | obj (o : JObj) : RawElem
  | nonObj : RawElem

/-- One iteration of `Conn.handleBatchMessage`'s loop: the response element
this batch element contributes, if any.  Classification failure contributes
InvalidRequest (null id); a request that fails to unmarshal contributes
ParseError (null id); an unknown method contributes MethodNotFound; a
handler error contributes InternalError with the error's text; success
contributes a success response.  Notifications contribute nothing and
response-typed elements are ignored. -/
def handleBatchElem (hs : Handlers) (e : RawElem) : Option Resp :=
  match e with
  | RawElem.nonObj => some (generateErrorResponse IDVal.null codeInvalidRequest "Invalid Request")
  | RawElem.obj o =>
    match getMessageType o with
    | Except.error _ =>
      some (generateErrorResponse IDVal.null codeInvalidRequest "Invalid Request")
    | Except.ok MessageType.request =>
      match reqOfObj o with
      | Except.error _ =>
        some (generateErrorResponse IDVal.null codeParseError "Parse error")
      | Except.ok (id, method) =>
        match handlersLookup hs method with
        | none => some (generateErrorResponse id codeMethodNotFound "method not found")
        | some (Except.error herr) =>
          some (generateErrorResponse id codeInternalError (goErrMessage herr))
        | some (Except.ok _) => some { id := id, errCode := none, message := "" }
    | Except.ok MessageType.notification => none
    | Except.ok MessageType.response => none

/-- `Conn.handleBatchMessage`: an empty batch sends one single (non-array)
InvalidRequest response with null id; otherwise the per-element responses
are collected in order and sent as one batch array when non-empty, and
nothing is sent when every element was a notification (or ignored). -/
def handleBatchMessageM (hs : Handlers) (batch : List RawElem) : Option WireOut :=
  match batch with
  | [] => some (WireOut.single
      (generateErrorResponse IDVal.null codeInvalidRequest "Invalid Request"))
  | _ =>
    let responses := batch.filterMap (handleBatchElem hs)
    match responses with
    | [] => none
    | _ => some (WireOut.arrayOut responses)

/-- A received raw message as `Conn.handleMessage` discriminates it: its
first non-space byte is a bracket and it decodes as an array of raw
elements, or it starts with a bracket but fails to decode as an array, or
it decodes as a JSON object, or it fails to decode as an object. -/
inductive RawMsg where
  | batchArr (elems : List RawElem) : RawMsg
  | badBatch : RawMsg
  | singleObj (o : JObj) : RawMsg
  | badSingle : RawMsg

/-- `Conn.handleMessage`: a message that starts with a bracket but fails to
decode as an array, or a non-batch message that fails to decode as an
object, is answered with a ParseError response with null id, and the
transport send's error is RETURNED; a decoded batch goes to
`handleBatchMessage` whose send error is returned; a decoded single object
goes to `handleRawMessage` whose error is DISCARDED (`_ =`), so the return
is nil. -/
def handleMessageM (hs : Handlers) (pending : Pending)
    (sendErr : Option String) (m : RawMsg) : HandleResult :=
  match m with
  | RawMsg.badBatch =>
    ⟨[WireOut.single (generateErrorResponse IDVal.null codeParseError "Parse error")],
      pending, sendErr⟩
  | RawMsg.batchArr elems =>
    match handleBatchMessageM hs elems with
    | some w => ⟨[w], pending, sendErr⟩
    | none => ⟨[], pending, none⟩
  | RawMsg.badSingle =>
    ⟨[WireOut.single (generateErrorResponse IDVal.null codeParseError "Parse error")],
      pending, sendErr⟩
  | RawMsg.singleObj o =>
    let r := handleRawMessageM hs pending sendErr o
    ⟨r.sent, r.pendingAfter, none⟩

/-- `Conn.serve`'s message loop (context alive, connection not closed):
each received message is paired with the transport-send outcome in effect
while handling it; a non-nil `handleMessage` return terminates the loop
with that error, exhausting the receive sequence returns the
closed-connection error. -/
def serveM (hs : Handlers) : Pending → List (RawMsg × Option String) → Pending × String
  | pending, [] => (pending, "connection closed")
  | pending, (m, se) :: rest =>
    let r := handleMessageM hs pending se m
    match r.ret with
    | some e => (r.pendingAfter, e)
    | none => serveM hs r.pendingAfter rest

end JsonRpc2

namespace Router

/-! ## The URI router (`router` package)

Go strings are modelled as `List Char`; Go byte-index slicing on the
ASCII hosts and paths the router handles coincides with character
indexing. -/

/-- A Go string. -/
abbrev Str := List Char

/-- `pathSegment`: a static or dynamic segment of a route path. -/
structure PathSegment where
  isParam : Bool
  paramName : Str
  literal : Str
deriving DecidableEq, Repr

/-- `route[T]`: a registered route.  `scheme` and a fixed `host` are stored
lowercase; a parameterized host keeps its full template text in `host`
(e.g. `{sub}.example.com`) with the name between the first braces in
`hostParamName`. -/
structure Route (T : Type) where
  scheme : Str
  hostIsParam : Bool
  hostParamName : Str
  host : Str
  pathSegments : List PathSegment
  query : List (Str × Str)
  handler : T
deriving DecidableEq, Repr

/-- `parsedURI`: the pre-parsed incoming request. -/
structure ParsedURI where
  scheme : Str
  host : Str
  pathSegs : List Str
  query : List (Str × Str)
deriving DecidableEq, Repr

/-- Map lookup on string-keyed association lists (Go map read). -/
def qLookup (q : List (Str × Str)) (k : Str) : Option Str :=
  match q with
  | [] => none
  | (k', v) :: rest => if k' = k then some v else qLookup rest k

/-- Host matching from `Mux.matchRoute`: a fixed host must be equal; for a
parameterized host the text before the first `{` and after the first `}` of
the template must be a prefix resp. suffix of the incoming host, and the
remaining middle of the incoming host — which must be non-empty — is bound
to the parameter.  (Go slices the host by byte index; when the fixed parts
overlap, the Go code would panic where this model yields an empty binding
and fails the match — no verified property depends on that corner.) -/
def hostMatch {T : Type} (rt : Route T) (incomingHost : Str) :
    Option (List (Str × Str)) :=
  if rt.hostIsParam then
    match rt.host.findIdx? (fun c => c = '{'), rt.host.findIdx? (fun c => c = '}') with
    | some s, some e =>
      if s < e then
        let pre := rt.host.take s
        let suf := rt.host.drop (e + 1)
        if pre.isPrefixOf incomingHost && suf.isSuffixOf incomingHost then
          let bound := (incomingHost.drop pre.length).take
            (incomingHost.length - suf.length - pre.length)
          if bound = [] then none
          else some [(rt.hostParamName, bound)]
        else none
      else none
    | _, _ => none
  else if rt.host = incomingHost then some []
  else none

/-- Path matching from `Mux.matchRoute`: same segment count, literal
segments equal (case-sensitive), parameter segments bind the incoming
segment. -/
def pathMatch : List PathSegment → List Str → Option (List (Str × Str))
  | [], [] => some []
  | [], _ :: _ => none
  | _ :: _, [] => none
  | seg :: segs, got :: rest =>
    if seg.isParam then
      match pathMatch segs rest with
      | none => none
      | some ps => some ((seg.paramName, got) :: ps)
    else if seg.literal = got then pathMatch segs rest
    else none

/-- Query matching from `Mux.matchRoute`: every registered key must be
present with an equal value; extra incoming keys are ignored. -/
def queryMatch (routeQuery incomingQuery : List (Str × Str)) : Bool :=
  routeQuery.all (fun kv =>
    match qLookup incomingQuery kv.1 with
    | some v => kv.2 = v
    | none => false)

/-- `Mux.matchRoute`: scheme equality, then host, path and query matching;
on success the extracted parameters (host binding first, then path bindings
in order). -/
def matchRoute {T : Type} (rt : Route T) (p : ParsedURI) :
    Option (List (Str × Str)) :=
  if rt.scheme = p.scheme then
    match hostMatch rt p.host with
    | none => none
    | some hostParams =>
      match pathMatch rt.pathSegments p.pathSegs with
      | none => none
      | some pathParams =>
        if queryMatch rt.query p.query then some (hostParams ++ pathParams)
        else none
  else none

/-- `calcStaticScore`: 1 for a fixed host plus 1 per static path segment. -/
def calcStaticScore {T : Type} (r : Route T) : Nat :=
  (if r.hostIsParam then 0 else 1) + r.pathSegments.countP (fun seg => seg.isParam = false)

/-- `matchedRoute`: a matched candidate with its parameters and score. -/
structure MatchedRoute (T : Type) where
  route : Route T
  params : List (Str × Str)
  score : Nat
deriving DecidableEq, Repr

/-- `pickBestMatch`: start from `candidates[0]` and replace the current
best only on a strictly greater score. -/
def pickBestMatch {T : Type} (first : MatchedRoute T) (rest : List (MatchedRoute T)) :
    MatchedRoute T :=
  rest.foldl (fun best c => if c.score > best.score then c else best) first

/-- `Mux[T]`: the registered routes in registration order, plus the
optional not-found handler. -/
structure Mux (T : Type) where
  routes : List (Route T)
  notFound : Option T
deriving DecidableEq, Repr

/-- The outcome of `Mux.Execute`: the chosen route's handler invoked with
the extracted parameters, or the not-found handler, or `ErrNotFound`. -/
inductive ExecResult (T : Type) where
  | invoked (handler : T) (params : List (Str × Str)) : ExecResult T
  | notFoundInvoked (handler : T) : ExecResult T
  | errNotFound : ExecResult T
deriving DecidableEq, Repr

/-- The candidate list `Mux.Execute` builds: the routes that match, in
registration order, each with its extracted parameters and static score. -/
def candidatesOf {T : Type} (m : Mux T) (p : ParsedURI) : List (MatchedRoute T) :=
  m.routes.filterMap (fun rt =>
    match matchRoute rt p with
    | some params => some ⟨rt, params, calcStaticScore rt⟩
    | none => none)

/-- `Mux.Execute` after URI parsing: collect matching candidates in
registration order, pick the best by static score, and invoke its handler
with the extracted parameters; with no candidate, fall back to the
not-found handler or `ErrNotFound`. -/
def Execute {T : Type} (m : Mux T) (p : ParsedURI) : ExecResult T :=
  match candidatesOf m p with
  | [] =>
    match m.notFound with
    | some h => ExecResult.notFoundInvoked h
    | none => ExecResult.errNotFound
  | c :: rest =>
    let best := pickBestMatch c rest
    ExecResult.invoked best.route.handler best.params

/-- Character class of `paramNamePattern` (`^[A-Za-z0-9_-]+$`). -/
def isValidParamChar (c : Char) : Bool :=
  decide (('A' ≤ c ∧ c ≤ 'Z') ∨ ('a' ≤ c ∧ c ≤ 'z') ∨ ('0' ≤ c ∧ c ≤ '9') ∨
    c = '_' ∨ c = '-')

/-- `isValidParamName`: non-empty and matching `paramNamePattern`. -/
def isValidParamName (name : Str) : Bool :=
  decide (name ≠ []) && name.all isValidParamChar

/-- `strings.TrimRight(p, "/")`. -/
def trimRightSlashes (s : Str) : Str :=
  (s.reverse.dropWhile (fun c => c = '/')).reverse

/-- `strings.Split` on one character. -/
def splitChar (c : Char) : Str → List Str
  | [] => [[]]
  | x :: xs =>
    let r := splitChar c xs
    if x = c then [] :: r
    else
      match r with
      | h :: t => (x :: h) :: t
      | [] => [[x]]

/-- One segment of `parsePath`: `{name}` becomes a parameter segment with a
validated name, anything else a literal segment. -/
def segToPathSegment (s : Str) : Except String PathSegment :=
  if (s.head? = some '{') ∧ (s.getLast? = some '}') then
    let name := (s.drop 1).dropLast
    if isValidParamName name then
      Except.ok { isParam := true, paramName := name, literal := [] }
    else Except.error "invalid path param name"
  else Except.ok { isParam := false, paramName := [], literal := s }

/-- `parsePath` (registration side): trim trailing slashes, split on `/`,
drop empty segments, convert each segment. -/
def parsePath (p : Str) : Except String (List PathSegment) :=
  ((splitChar '/' (trimRightSlashes p)).filter (fun s => s ≠ [])).mapM segToPathSegment

/-- `parsePathForRequest`: the same normalization, keeping the literal
segments. -/
def parsePathForRequest (p : Str) : List Str :=
  (splitChar '/' (trimRightSlashes p)).filter (fun s => s ≠ [])

/-! ### Concrete instances used to evaluate the router model

These reproduce the registrations and requests named by the specification's
testable properties.  Handlers are numeric tags. -/

/-- A Go string literal as a character list. -/
def ofS (s : String) : Str := s.data

/-- The path segments of a registration pattern (`parsePath` is total on
the patterns used here). -/
def segsOrEmpty (p : Str) : List PathSegment :=
  match parsePath p with
  | Except.ok segs => segs
  | Except.error _ => []

/-- Registration of `http://example.com/users/{id}` (handler tag 1). -/
def usersIdRoute : Route Nat :=
  { scheme := ofS "http", hostIsParam := false, hostParamName := [],
    host := ofS "example.com", pathSegments := segsOrEmpty (ofS "/users/{id}"),
    query := [], handler := 1 }

/-- Registration of `http://example.com/users/profile` (handler tag 2). -/
def usersProfileRoute : Route Nat :=
  { scheme := ofS "http", hostIsParam := false, hostParamName := [],
    host := ofS "example.com", pathSegments := segsOrEmpty (ofS "/users/profile"),
    query := [], handler := 2 }

/-- The mux with both `users` routes, `{id}` registered first. -/
def usersMux : Mux Nat := { routes := [usersIdRoute, usersProfileRoute], notFound := none }

/-- The parsed request `http://example.com/users/profile`. -/
def usersProfileURI : ParsedURI :=
  { scheme := ofS "http", host := ofS "example.com",
    pathSegs := parsePathForRequest (ofS "/users/profile"), query := [] }

/-- Registration of `http://{sub}.example.com/x` (handler tag 3): the host
template keeps its fixed suffix around the parameter. -/
def subHostRoute : Route Nat :=
  { scheme := ofS "http", hostIsParam := true, hostParamName := ofS "sub",
    host := ofS "{sub}.example.com", pathSegments := segsOrEmpty (ofS "/x"),
    query := [], handler := 3 }

/-- The parsed request `http://test.example.com/x`. -/
def subHostURI : ParsedURI :=
  { scheme := ofS "http", host := ofS "test.example.com",
    pathSegs := parsePathForRequest (ofS "/x"), query := [] }

/-- Registration of `http://example.com/{a}/x` (handler tag 11). -/
def tieRoute1 : Route Nat :=
  { scheme := ofS "http", hostIsParam := false, hostParamName := [],
    host := ofS "example.com", pathSegments := segsOrEmpty (ofS "/{a}/x"),
    query := [], handler := 11 }

/-- Registration of `http://example.com/y/{b}` (handler tag 22): same
static score as `tieRoute1` and both match `/y/x`. -/
def tieRoute2 : Route Nat :=
  { scheme := ofS "http", hostIsParam := false, hostParamName := [],
    host := ofS "example.com", pathSegments := segsOrEmpty (ofS "/y/{b}"),
    query := [], handler := 22 }

/-- The mux with the two tied routes, `tieRoute1` registered first. -/
def tieMux : Mux Nat := { routes := [tieRoute1, tieRoute2], notFound := none }

/-- The parsed request `http://example.com/y/x`, matched by both tied
routes with equal score. -/
def tieURI : ParsedURI :=
  { scheme := ofS "http", host := ofS "example.com",
    pathSegs := parsePathForRequest (ofS "/y/x"), query := [] }

end Router

deriving instance DecidableEq for Except

namespace JsonRpc2

/-! ## Theorems: message classification (C1) -/

theorem specVersionOk_eq (v : JObj) : specVersionOk v = jsonrpcOk v := by
  unfold specVersionOk jsonrpcOk
  cases jLookup v "jsonrpc" with
  | none => rfl
  | some j => cases j <;> rfl

/-- Claim C1: for every decoded JSON object, `getMessageType` classifies
exactly as the spec's ordered rules do — failure when `jsonrpc` is missing
or not "2.0"; otherwise an `error` member yields Response even with no id;
otherwise `result` yields Response with an id present and failure without;
otherwise `method` yields Request with an id and Notification without; and
none of these members is a failure. -/
theorem c1_getMessageType_follows_spec (v : JObj) :
    classifyOk v = specClassify v := by
  unfold classifyOk specClassify getMessageType
  rw [specVersionOk_eq]
  cases h : jsonrpcOk v
  · simp [h, Except.toOption]
  · simp only [h, not_true_eq_false, Bool.not_true]
    split_ifs <;> simp_all [Except.toOption]

/-! ## Theorems: ID round-trip (C6) -/

theorem bitlenFuel_le_of_lt (fuel k n : Nat) (h : n < 2 ^ k) :
    bitlenFuel fuel n ≤ k := by
  induction fuel generalizing k n with
  | zero => simp [bitlenFuel]
  | succ f ih =>
    unfold bitlenFuel
    by_cases hn : n = 0
    · simp [hn]
    · simp only [hn, if_false]
      cases k with
      | zero => norm_num at h; omega
      | succ j =>
        have h2 : n / 2 < 2 ^ j := by
          rw [pow_succ] at h
          omega
        have := ih j (n / 2) h2
        omega

theorem two_pow_le_of_bitlenFuel (fuel k n : Nat)
    (h : k + 1 ≤ bitlenFuel fuel n) : 2 ^ k ≤ n := by
  induction fuel generalizing k n with
  | zero => simp [bitlenFuel] at h
  | succ f ih =>
    unfold bitlenFuel at h
    by_cases hn : n = 0
    · simp [hn] at h
    · simp only [hn, if_false] at h
      cases k with
      | zero =>
        simpa using Nat.one_le_iff_ne_zero.mpr hn
      | succ j =>
        have h2 : j + 1 ≤ bitlenFuel f (n / 2) := by omega
        have h3 := ih j (n / 2) h2
        rw [pow_succ]
        omega

theorem roundNat53_eq_self (a : Nat) (ha : a ≤ 2 ^ 53) : roundNat53 a = a := by
  rcases eq_or_lt_of_le ha with heq | hlt
  · rw [heq]
    decide
  · have hb : bitlen a ≤ 53 := bitlenFuel_le_of_lt 128 53 a hlt
    simp [roundNat53, hb, bitlen] at hb ⊢
    simp [hb]

theorem roundInt53_eq_self (n : Int) (h : n.natAbs ≤ 2 ^ 53) :
    roundInt53 n = n := by
  unfold roundInt53
  by_cases hn : n < 0
  · rw [if_pos hn, roundNat53_eq_self _ h, Int.natCast_natAbs, abs_of_neg hn,
      neg_neg]
  · rw [if_neg hn, roundNat53_eq_self _ h, Int.natCast_natAbs,
      abs_of_nonneg (not_lt.mp hn)]

/-- Claim C6 (amended): marshalling and unmarshalling an ID round-trips to
an equal ID for every string ID, the null ID, and every integer ID whose
absolute value is at most `2 ^ 53` (an integer JSON numeral is decoded
through `float64`, so larger integers can lose precision). -/
theorem c6_amended_id_roundtrip (id : IDVal)
    (h : ∀ n : Int, id = IDVal.int n → n.natAbs ≤ 2 ^ 53) :
    idRoundtrip id = Except.ok id := by
  cases id with
  | str s => rfl
  | null => rfl
  | int n =>
    have hn := h n rfl
    show Except.ok (IDVal.int (roundInt53 n)) = Except.ok (IDVal.int n)
    rw [roundInt53_eq_self n hn]

/-- Claim C6 counterexample: the integer ID `2 ^ 53 + 1` does not survive
the marshal/unmarshal round-trip — it comes back as `2 ^ 53` because the
decoder goes through `float64`. -/
theorem c6_counterexample_large_int :
    idRoundtrip (IDVal.int 9007199254740993) =
      Except.ok (IDVal.int 9007199254740992) ∧
    idRoundtrip (IDVal.int 9007199254740993) ≠
      Except.ok (IDVal.int 9007199254740993) := by
  constructor
  · decide
  · decide

/-- Claim C6 witness: the amended round-trip theorem applied at the
integer ID 42. -/
theorem c6_witness_small_int :
    idRoundtrip (IDVal.int 42) = Except.ok (IDVal.int 42) :=
  c6_amended_id_roundtrip (IDVal.int 42) (by
    intro n hn
    injection hn with h2
    subst h2
    decide)

/-! ## Theorems: empty batch (C7) -/

/-- Claim C7: an empty batch array is answered with one single (non-array)
InvalidRequest error response whose id is null, with code -32600. -/
theorem c7_empty_batch_single_invalid_request (hs : Handlers) :
    handleBatchMessageM hs [] =
      some (WireOut.single
        (generateErrorResponse IDVal.null codeInvalidRequest "Invalid Request")) ∧
    codeInvalidRequest = -32600 :=
  ⟨rfl, rfl⟩

/-! ## Theorems: parse-error reply and the serve loop (C5) -/

/-- Claim C5 counterexample: when the transport send of the ParseError
reply fails, `handleMessage` returns that send error and `serve`
terminates with it — the send failure is not swallowed. -/
theorem c5_counterexample_send_error_propagates :
    (handleMessageM [] [] (some "send failed") RawMsg.badSingle).ret =
      some "send failed" ∧
    serveM [] [] [(RawMsg.badSingle, some "send failed")] =
      ([], "send failed") :=
  ⟨rfl, rfl⟩

/-- Claim C5 (amended): a non-batch message that fails to decode as an
object is answered with a ParseError response with null id, and
`handleMessage` returns exactly the transport send's error: when the reply
send succeeds the decode failure is swallowed and the serve loop
continues, but a reply-send failure terminates the serve loop with that
error. -/
theorem c5_amended_parse_error_reply (hs : Handlers) (pending : Pending)
    (sendErr : Option String) :
    handleMessageM hs pending sendErr RawMsg.badSingle =
      ⟨[WireOut.single (generateErrorResponse IDVal.null codeParseError "Parse error")],
        pending, sendErr⟩ ∧
    (∀ rest, serveM hs pending ((RawMsg.badSingle, none) :: rest) =
      serveM hs pending rest) ∧
    (∀ e rest, serveM hs pending ((RawMsg.badSingle, some e) :: rest) =
      (pending, e)) :=
  ⟨rfl, fun _ => rfl, fun _ _ => rfl⟩

/-! ## Theorems: Call registration and the pending table (C2, C4) -/

theorem pendingDelete_insert_self (m : Pending) (id : IDVal) (ch : Nat) :
    pendingDelete (pendingInsert m id ch) id = pendingDelete m id := by
  simp [pendingInsert, pendingDelete, List.filter_filter]

theorem pendingDelete_of_lookup_none (m : Pending) (id : IDVal)
    (h : pendingLookup m id = none) : pendingDelete m id = m := by
  induction m with
  | nil => rfl
  | cons kv rest ih =>
    obtain ⟨k, v⟩ := kv
    unfold pendingLookup at h
    by_cases hk : k = id
    · simp [hk] at h
    · simp only [hk, if_false] at h
      simp [pendingDelete, List.filter_cons, hk] at ih ⊢
      exact ih h

/-- Claim C2 (amended): on every path of `Conn.Call` that reaches the
transport, the delivery slot is registered before the send; on send
failure the registration is removed again and the send error returned,
and when the id was not already registered before the Call (the intended
fresh-ID usage) this leaves the pending table exactly as it was. -/
theorem c2_amended_register_before_send (pending0 : Pending) (id : IDVal)
    (ch : Nat) (_hnull : id ≠ IDVal.null)
    (hfresh : pendingLookup pending0 id = none) :
    (∀ marshalOk sendOk : Bool,
      CallEvent.send ∈ (connCall pending0 false false marshalOk sendOk id ch).events →
      (connCall pending0 false false marshalOk sendOk id ch).events.take 2 =
        [CallEvent.register id, CallEvent.send]) ∧
    connCall pending0 false false true false id ch =
      ⟨[CallEvent.register id, CallEvent.send, CallEvent.unregister id],
        pending0, CallRet.sendError⟩ := by
  constructor
  · intro mOk sOk hmem
    cases mOk <;> cases sOk <;> simp [connCall] at hmem ⊢
  · simp [connCall, pendingDelete_insert_self,
      pendingDelete_of_lookup_none _ _ hfresh]

/-- Claim C2 witness: the amended theorem applied to a fresh id 1 on an
empty pending table with a failing send. -/
theorem c2_witness_fresh_call :
    connCall [] false false true false (IDVal.int 1) 0 =
      ⟨[CallEvent.register (IDVal.int 1), CallEvent.send,
        CallEvent.unregister (IDVal.int 1)], [], CallRet.sendError⟩ :=
  (c2_amended_register_before_send [] (IDVal.int 1) 0 (by decide) rfl).2

/-- Claim C2 counterexample: a Call that reuses an id already registered
(slot 0) overwrites it and then, on send failure, deletes the entry, so
the pending table is NOT left as it was before the Call. -/
theorem c2_counterexample_nonfresh_id :
    (connCall [(IDVal.int 1, 0)] false false true false (IDVal.int 1) 7).ret =
      CallRet.sendError ∧
    (connCall [(IDVal.int 1, 0)] false false true false (IDVal.int 1) 7).finalPending =
      [] ∧
    ([] : Pending) ≠ [(IDVal.int 1, 0)] := by
  refine ⟨rfl, by decide, by decide⟩

/-- Claim C4 counterexample: registering a delivery slot (channel 7) for
id 1 while slot 0 is still registered for id 1 does not fail — the Call
proceeds to its wait (`waiting`) and the new slot has replaced the old
entry. -/
theorem c4_counterexample_register_replaces :
    (connCall [(IDVal.int 1, 0)] false false true true (IDVal.int 1) 7).ret =
      CallRet.waiting ∧
    (connCall [(IDVal.int 1, 0)] false false true true (IDVal.int 1) 7).finalPending =
      [(IDVal.int 1, 7)] := by
  refine ⟨rfl, by decide⟩

/-- Claim C4 (amended): registration never fails; registering an id that
is already registered replaces the existing entry (Go map assignment), so
the table always holds at most one entry per id, and uniqueness of live
slots relies on callers generating fresh ids. -/
theorem c4_amended_register_overwrites (pending0 : Pending) (id : IDVal)
    (ch : Nat) :
    (connCall pending0 false false true true id ch).ret = CallRet.waiting ∧
    (connCall pending0 false false true true id ch).finalPending =
      pendingInsert pending0 id ch ∧
    pendingLookup (pendingInsert pending0 id ch) id = some ch ∧
    (pendingInsert pending0 id ch).countP (fun kv => kv.1 = id) = 1 := by
  refine ⟨rfl, rfl, by simp [pendingInsert, pendingLookup], ?_⟩
  simp only [pendingInsert, List.countP_cons]
  have hz : (pendingDelete pending0 id).countP (fun kv => kv.1 = id) = 0 := by
    rw [List.countP_eq_zero]
    intro kv hkv
    have hm := List.mem_filter.mp hkv
    simpa using hm.2
  simp [hz]

/-! ## Theorems: Close and blocked Calls (C3) -/

/-- Claim C3 (code bug): `Conn.Close` only closes the `closed` channel and
the transport — it leaves every pending delivery slot in place — and the
wait `select` of a blocked `Conn.Call` has only the response-channel and
`ctx.Done()` cases, so a blocked Call with no delivered response and a
live context does not wake up when the connection is closed, contrary to
the claim and to `Close`'s own documentation. -/
theorem c3_close_does_not_wake_blocked_call :
    connClose { pending := [(IDVal.int 1, 5)], closed := false } =
      { pending := [(IDVal.int 1, 5)], closed := true } ∧
    callWaiterWakes false false = false ∧
    (∀ s : ConnState, (connClose s).pending = s.pending) := by
  refine ⟨rfl, rfl, fun s => ?_⟩
  unfold connClose
  split <;> rfl

end JsonRpc2

namespace Router

/-! ## Theorems: route selection (C8, C10) -/

theorem pickBestMatch_cons {T : Type} (first c : MatchedRoute T)
    (cs : List (MatchedRoute T)) :
    pickBestMatch first (c :: cs) =
      pickBestMatch (if c.score > first.score then c else first) cs := rfl

theorem pickBestMatch_score_ge {T : Type} (first : MatchedRoute T)
    (rest : List (MatchedRoute T)) :
    first.score ≤ (pickBestMatch first rest).score ∧
    ∀ c ∈ rest, c.score ≤ (pickBestMatch first rest).score := by
  induction rest generalizing first with
  | nil => exact ⟨le_refl _, by simp⟩
  | cons c cs ih =>
    rw [pickBestMatch_cons]
    by_cases hc : c.score > first.score
    · rw [if_pos hc]
      have IH := ih c
      refine ⟨le_trans (le_of_lt hc) IH.1, ?_⟩
      intro d hd
      rcases List.mem_cons.mp hd with rfl | hd2
      · exact IH.1
      · exact IH.2 d hd2
    · rw [if_neg hc]
      have IH := ih first
      refine ⟨IH.1, ?_⟩
      intro d hd
      rcases List.mem_cons.mp hd with rfl | hd2
      · exact le_trans (by omega) IH.1
      · exact IH.2 d hd2

theorem pickBestMatch_first_max {T : Type} (first : MatchedRoute T)
    (rest : List (MatchedRoute T)) :
    ∃ l1 l2, first :: rest = l1 ++ pickBestMatch first rest :: l2 ∧
      ∀ c ∈ l1, c.score < (pickBestMatch first rest).score := by
  induction rest generalizing first with
  | nil => exact ⟨[], [], rfl, by simp⟩
  | cons c cs ih =>
    rw [pickBestMatch_cons]
    by_cases hc : c.score > first.score
    · rw [if_pos hc]
      obtain ⟨l1, l2, heq, hlt⟩ := ih c
      refine ⟨first :: l1, l2, ?_, ?_⟩
      · rw [List.cons_append, ← heq]
      · intro d hd
        rcases List.mem_cons.mp hd with rfl | hd2
        · exact lt_of_lt_of_le hc (pickBestMatch_score_ge c cs).1
        · exact hlt d hd2
    · rw [if_neg hc]
      obtain ⟨l1, l2, heq, hlt⟩ := ih first
      cases l1 with
      | nil =>
        simp only [List.nil_append] at heq
        have h1 : first = pickBestMatch first cs := (List.cons_eq_cons.mp heq).1
        refine ⟨[], c :: cs, ?_, by simp⟩
        rw [List.nil_append, ← h1]
      | cons x l1t =>
        rw [List.cons_append] at heq
        have hx : first = x := (List.cons_eq_cons.mp heq).1
        have hcs : cs = l1t ++ pickBestMatch first cs :: l2 :=
          (List.cons_eq_cons.mp heq).2
        have hfirst_lt : first.score < (pickBestMatch first cs).score := by
          refine hlt x ?_ |>.trans_le' ?_
          · exact List.mem_cons_self x l1t
          · rw [hx]
        refine ⟨first :: c :: l1t, l2, ?_, ?_⟩
        · conv_lhs => rw [hcs]
          simp
        · intro d hd
          rcases List.mem_cons.mp hd with rfl | hd2
          · exact hfirst_lt
          · rcases List.mem_cons.mp hd2 with rfl | hd3
            · exact lt_of_le_of_lt (by omega) hfirst_lt
            · exact hlt d (List.mem_cons_of_mem x hd3)

theorem candidatesOf_mem {T : Type} (m : Mux T) (p : ParsedURI)
    (c : MatchedRoute T) (hc : c ∈ candidatesOf m p) :
    c.route ∈ m.routes ∧ matchRoute c.route p = some c.params ∧
    c.score = calcStaticScore c.route := by
  unfold candidatesOf at hc
  obtain ⟨rt, hrt, hmatch⟩ := List.mem_filterMap.mp hc
  cases hm : matchRoute rt p with
  | none => rw [hm] at hmatch; simp at hmatch
  | some params =>
    rw [hm] at hmatch
    simp only [Option.some.injEq] at hmatch
    subst hmatch
    exact ⟨hrt, hm, rfl⟩

end Router

namespace Router

/-- Claim C8: whenever several registered routes match the executed URI,
the route invoked by `Execute` is one whose static-specificity score —
1 for a fixed host plus the number of fixed path segments
(`calcStaticScore`) — is maximal among all matching candidates; and in
particular, with `http://example.com/users/{id}` and
`http://example.com/users/profile` registered, executing
`http://example.com/users/profile` invokes the fixed "profile" route
(handler tag 2). -/
theorem c8_execute_picks_max_specificity {T : Type} (m : Mux T)
    (p : ParsedURI) (c : MatchedRoute T) (rest : List (MatchedRoute T))
    (hc : candidatesOf m p = c :: rest) :
    (∃ b, b ∈ candidatesOf m p ∧
      Execute m p = ExecResult.invoked b.route.handler b.params ∧
      b.score = calcStaticScore b.route ∧
      matchRoute b.route p = some b.params ∧
      (∀ d ∈ candidatesOf m p, d.score ≤ b.score)) ∧
    Execute usersMux usersProfileURI = ExecResult.invoked 2 [] := by
  constructor
  · have hbmem : pickBestMatch c rest ∈ candidatesOf m p := by
      rw [hc]
      obtain ⟨l1, l2, heq, _⟩ := pickBestMatch_first_max c rest
      rw [heq]
      exact List.mem_append.mpr (Or.inr (List.mem_cons_self _ _))
    obtain ⟨hroute, hmatch, hscore⟩ := candidatesOf_mem m p _ hbmem
    refine ⟨pickBestMatch c rest, hbmem, ?_, hscore, hmatch, ?_⟩
    · unfold Execute
      rw [hc]
    · intro d hd
      rw [hc] at hd
      have hge := pickBestMatch_score_ge c rest
      rcases List.mem_cons.mp hd with rfl | hd2
      · exact hge.1
      · exact hge.2 d hd2
  · rfl

/-- Claim C8 witness: the selection theorem applied to the concrete
`users` mux, whose candidate list for `/users/profile` is the `{id}` route
(score 2) followed by the fixed `profile` route (score 3). -/
theorem c8_witness_profile_route :
    Execute usersMux usersProfileURI = ExecResult.invoked 2 [] :=
  (c8_execute_picks_max_specificity usersMux usersProfileURI
    ⟨usersIdRoute, [(ofS "id", ofS "profile")], 2⟩
    [⟨usersProfileRoute, [], 3⟩] (by decide)).2

/-- Claim C10: candidates are collected in registration order and
`pickBestMatch` replaces the current best only on a strictly greater
score, so `Execute` invokes the earliest-registered of the top-scoring
matched routes: the invoked candidate splits the candidate list so that
every candidate before it scores strictly less, and none scores more. -/
theorem c10_first_registered_wins {T : Type} (m : Mux T) (p : ParsedURI)
    (c : MatchedRoute T) (rest : List (MatchedRoute T))
    (hc : candidatesOf m p = c :: rest) :
    ∃ l1 l2,
      Execute m p = ExecResult.invoked (pickBestMatch c rest).route.handler
        (pickBestMatch c rest).params ∧
      candidatesOf m p = l1 ++ pickBestMatch c rest :: l2 ∧
      (∀ d ∈ l1, d.score < (pickBestMatch c rest).score) ∧
      (∀ d ∈ candidatesOf m p, d.score ≤ (pickBestMatch c rest).score) := by
  obtain ⟨l1, l2, heq, hlt⟩ := pickBestMatch_first_max c rest
  refine ⟨l1, l2, ?_, ?_, hlt, ?_⟩
  · unfold Execute
    rw [hc]
  · rw [hc]
    exact heq
  · intro d hd
    rw [hc] at hd
    have hge := pickBestMatch_score_ge c rest
    rcases List.mem_cons.mp hd with rfl | hd2
    · exact hge.1
    · exact hge.2 d hd2

/-- Claim C10 witness: the tie-break theorem applied to the concrete tie
mux, where `/{a}/x` and `/y/{b}` both match `/y/x` with equal score 2 and
the first-registered route (handler tag 11) wins. -/
theorem c10_witness_tie :
    (∃ l1 l2,
      Execute tieMux tieURI = ExecResult.invoked
        (pickBestMatch ⟨tieRoute1, [(ofS "a", ofS "y")], 2⟩
          [⟨tieRoute2, [(ofS "b", ofS "x")], 2⟩]).route.handler
        (pickBestMatch ⟨tieRoute1, [(ofS "a", ofS "y")], 2⟩
          [⟨tieRoute2, [(ofS "b", ofS "x")], 2⟩]).params ∧
      candidatesOf tieMux tieURI =
        l1 ++ pickBestMatch ⟨tieRoute1, [(ofS "a", ofS "y")], 2⟩
          [⟨tieRoute2, [(ofS "b", ofS "x")], 2⟩] :: l2 ∧
      (∀ d ∈ l1, d.score <
        (pickBestMatch ⟨tieRoute1, [(ofS "a", ofS "y")], 2⟩
          [⟨tieRoute2, [(ofS "b", ofS "x")], 2⟩]).score) ∧
      (∀ d ∈ candidatesOf tieMux tieURI, d.score ≤
        (pickBestMatch ⟨tieRoute1, [(ofS "a", ofS "y")], 2⟩
          [⟨tieRoute2, [(ofS "b", ofS "x")], 2⟩]).score)) ∧
    Execute tieMux tieURI = ExecResult.invoked 11 [(ofS "a", ofS "y")] :=
  ⟨c10_first_registered_wins tieMux tieURI
    ⟨tieRoute1, [(ofS "a", ofS "y")], 2⟩
    [⟨tieRoute2, [(ofS "b", ofS "x")], 2⟩] (by decide), by decide⟩

end Router

namespace Router

/-! ## Theorems: parameterized-host matching (C9) -/

theorem isPrefixOf_eq_append (l h : List Char) (hp : l.isPrefixOf h = true) :
    h = l ++ h.drop l.length := by
  induction l generalizing h with
  | nil => simp
  | cons a as ih =>
    cases h with
    | nil => simp [List.isPrefixOf] at hp
    | cons b bs =>
      simp only [List.isPrefixOf, Bool.and_eq_true, beq_iff_eq] at hp
      obtain ⟨rfl, h2⟩ := hp
      exact congrArg (List.cons a) (ih bs h2)

theorem isSuffixOf_parts (l h : List Char) (hs : l.isSuffixOf h = true) :
    ∃ u, h = u ++ l := by
  unfold List.isSuffixOf at hs
  have hrev := isPrefixOf_eq_append _ _ hs
  refine ⟨(h.reverse.drop l.reverse.length).reverse, ?_⟩
  calc h = h.reverse.reverse := (List.reverse_reverse h).symm
  _ = (l.reverse ++ h.reverse.drop l.reverse.length).reverse := by rw [← hrev]
  _ = (h.reverse.drop l.reverse.length).reverse ++ l := by
        rw [List.reverse_append, List.reverse_reverse]

theorem host_decomp (pre suf h : List Char)
    (hp : pre.isPrefixOf h = true) (hs : suf.isSuffixOf h = true)
    (hb : (h.drop pre.length).take (h.length - suf.length - pre.length) ≠ []) :
    h = pre ++ (h.drop pre.length).take (h.length - suf.length - pre.length) ++ suf ∧
    pre.length + suf.length < h.length := by
  obtain ⟨u, hu⟩ := isSuffixOf_parts suf h hs
  have hulen : u.length = h.length - suf.length := by
    have hlen : h.length = u.length + suf.length := by
      rw [hu, List.length_append]
    omega
  have hpre := isPrefixOf_eq_append pre h hp
  have htlen : (h.drop pre.length).length = h.length - pre.length :=
    List.length_drop _ _
  have hkpos : 0 < h.length - suf.length - pre.length := by
    by_contra hk0
    exact hb (by
      have : h.length - suf.length - pre.length = 0 := by omega
      rw [this, List.take_zero])
  have halen : pre.length ≤ h.length := by
    have : h.length = pre.length + (h.drop pre.length).length := by
      conv_lhs => rw [hpre]
      rw [List.length_append]
    omega
  have hdrop : (h.drop pre.length).drop (h.length - suf.length - pre.length) = suf := by
    rw [List.drop_drop]
    have heq : pre.length + (h.length - suf.length - pre.length) = u.length := by omega
    rw [heq, hu, List.drop_left]
  have hsplit : h.drop pre.length =
      (h.drop pre.length).take (h.length - suf.length - pre.length) ++ suf := by
    conv_lhs => rw [← List.take_append_drop
      (h.length - suf.length - pre.length) (h.drop pre.length)]
    rw [hdrop]
  refine ⟨?_, by omega⟩
  conv_lhs => rw [hpre, hsplit]
  exact (List.append_assoc _ _ _).symm

/-- Claim C9 (amended): when a route's host is parameterized, matching
requires the template's fixed text before `{` to be a prefix and the fixed
text after `}` to be a suffix of the incoming host, and binds the host
parameter to the remaining middle of the host, which must be non-empty —
the entire incoming host is bound exactly in the special case where the
braces span the whole template (no fixed text on either side). -/
theorem c9_amended_host_binding {T : Type} (rt : Route T) (p : ParsedURI)
    (params : List (Str × Str)) (s e : Nat)
    (hp : rt.hostIsParam = true)
    (hs : rt.host.findIdx? (fun c => c = '{') = some s)
    (he : rt.host.findIdx? (fun c => c = '}') = some e)
    (hm : matchRoute rt p = some params) :
    ∃ bound,
      params.head? = some (rt.hostParamName, bound) ∧
      bound ≠ [] ∧
      p.host = rt.host.take s ++ bound ++ rt.host.drop (e + 1) ∧
      (s = 0 → e + 1 = rt.host.length → bound = p.host) := by
  unfold matchRoute at hm
  by_cases hsch : rt.scheme = p.scheme
  case neg => rw [if_neg hsch] at hm; cases hm
  rw [if_pos hsch] at hm
  cases hh : hostMatch rt p.host with
  | none => rw [hh] at hm; cases hm
  | some hostParams =>
    rw [hh] at hm
    unfold hostMatch at hh
    rw [hp] at hh
    simp only [if_true] at hh
    rw [hs, he] at hh
    dsimp only at hh
    by_cases hse : s < e
    case neg => rw [if_neg hse] at hh; cases hh
    rw [if_pos hse] at hh
    by_cases hfix : (rt.host.take s).isPrefixOf p.host &&
        (rt.host.drop (e + 1)).isSuffixOf p.host
    case neg => rw [if_neg hfix] at hh; cases hh
    rw [if_pos hfix] at hh
    by_cases hbe : (p.host.drop (rt.host.take s).length).take
        (p.host.length - (rt.host.drop (e + 1)).length - (rt.host.take s).length) = []
    case pos => rw [if_pos hbe] at hh; cases hh
    rw [if_neg hbe] at hh
    have hhp : hostParams =
        [(rt.hostParamName,
          (p.host.drop (rt.host.take s).length).take
            (p.host.length - (rt.host.drop (e + 1)).length - (rt.host.take s).length))] :=
      (Option.some.injEq _ _).mp hh.symm
    rw [Bool.and_eq_true] at hfix
    obtain ⟨hpr, hsu⟩ := hfix
    have hdec := host_decomp (rt.host.take s) (rt.host.drop (e + 1)) p.host hpr hsu hbe
    cases hpm : pathMatch rt.pathSegments p.pathSegs with
    | none => rw [hpm] at hm; cases hm
    | some pathParams =>
      rw [hpm] at hm
      dsimp only at hm
      by_cases hq : queryMatch rt.query p.query
      case neg => rw [if_neg hq] at hm; cases hm
      rw [if_pos hq] at hm
      have hparams : params = hostParams ++ pathParams :=
        ((Option.some.injEq _ _).mp hm).symm
      refine ⟨(p.host.drop (rt.host.take s).length).take
          (p.host.length - (rt.host.drop (e + 1)).length - (rt.host.take s).length),
        ?_, hbe, hdec.1, ?_⟩
      · rw [hparams, hhp]
        rfl
      · intro hs0 helen
        subst hs0
        rw [helen]
        simp [List.take_zero, List.drop_length, List.drop_zero, List.take_length]

end Router

namespace Router

/-- Claim C9 counterexample: the route `http://{sub}.example.com/x` has a
parameterized host, and executing against host `test.example.com` matches
and binds `sub` to `"test"` — only part of the incoming host, not the
entire host string. -/
theorem c9_counterexample_partial_host_binding :
    subHostRoute.hostIsParam = true ∧
    matchRoute subHostRoute subHostURI = some [(ofS "sub", ofS "test")] ∧
    ofS "test" ≠ subHostURI.host := by
  refine ⟨rfl, by decide, by decide⟩

/-- Claim C9 witness: the amended host-binding theorem applied to
`http://{sub}.example.com/x` matched against `test.example.com`: the brace
positions are 0 and 4, so the fixed suffix `.example.com` must match and
only the middle of the host is bound. -/
theorem c9_witness_sub_binding :
    ∃ bound,
      ([(ofS "sub", ofS "test")] : List (Str × Str)).head? =
        some (subHostRoute.hostParamName, bound) ∧
      bound ≠ [] ∧
      subHostURI.host = subHostRoute.host.take 0 ++ bound ++
        subHostRoute.host.drop (4 + 1) ∧
      (0 = 0 → 4 + 1 = subHostRoute.host.length → bound = subHostURI.host) :=
  c9_amended_host_binding subHostRoute subHostURI [(ofS "sub", ofS "test")]
    0 4 rfl (by decide) (by decide) (by decide)

end Router
